import Mathlib

/-!
Verification of the storage-engine logic of `jupyters3/jupyters3.py`
(an S3-backed Jupyter contents manager) against its natural-language
specification.  Python functions are shallowly embedded as Lean
functions; the S3 store is modelled as an association list from object
keys to byte lists, and Python byte strings / strings are modelled as
`List Nat` (byte values) / `String`.  Python's stable ascending
`sorted(..., key=...)` is modelled by `List.insertionSort` with the
non-strict key comparison, which computes the same (unique) stable
ascending reordering.
-/

namespace JupyterS3

/-! ## Path/key mapping (`_key`, `_path`, `_is_root`, sort keys) -/

/-- Python `path.lstrip("/")`: drop all leading slashes. -/
def lstripSlash (p : String) : String :=
  String.mk (p.data.dropWhile (fun c => c == '/'))

/-- `_key(context, path) = context.prefix + path.lstrip("/")` (the
configured key prefix is the `pfx` argument). -/
def _key (pfx path : String) : String :=
  pfx ++ lstripSlash path

/-- `_is_root(path)`: the root path is the empty string (notebook UI)
or `"/"` (lab UI). -/
def _is_root (path : String) : Bool :=
  path == "" || path == "/"

/-- `_final_path_component`: `key_or_path.split("/")[-1]`. -/
def _final_path_component (s : String) : String :=
  String.mk (((s.data.splitOn '/').getLast?).getD [])

/-- Python `key.count("/")`: number of `/` characters in the key. -/
def slashCount (s : String) : Nat :=
  s.data.countP (fun c => c == '/')

/-- Python `key.endswith(DIRECTORY_SUFFIX)` with `DIRECTORY_SUFFIX = "/"`. -/
def endsWithSlash (s : String) : Bool :=
  s.data.getLast? == some '/'

/-- `_copy_sort_key(key) = (key.count("/"), 0 if key.endswith("/") else 1)`. -/
def _copy_sort_key (key : String) : Nat × Nat :=
  (slashCount key, if endsWithSlash key then 0 else 1)

/-- `_delete_sort_key(key) = tuple(-1 * k for k in _copy_sort_key(key))`. -/
def _delete_sort_key (key : String) : Int × Int :=
  (-(slashCount key : Int), -(((_copy_sort_key key).2 : Int)))

/-! ## Stable sorting by key (model of Python `sorted(..., key=...)`) -/

/-- Non-strict lexicographic order on pairs, the order Python uses to
compare 2-tuples of numbers. -/
def pairLe {β : Type} [LinearOrder β] (x y : β × β) : Prop :=
  x.1 < y.1 ∨ (x.1 = y.1 ∧ x.2 ≤ y.2)

instance pairLe.dec {β : Type} [LinearOrder β] (x y : β × β) :
    Decidable (pairLe x y) := by
  unfold pairLe; infer_instance

theorem pairLe_total {β : Type} [LinearOrder β] (x y : β × β) :
    pairLe x y ∨ pairLe y x := by
  unfold pairLe
  rcases lt_trichotomy x.1 y.1 with h | h | h
  · exact Or.inl (Or.inl h)
  · rcases le_total x.2 y.2 with h2 | h2
    · exact Or.inl (Or.inr ⟨h, h2⟩)
    · exact Or.inr (Or.inr ⟨h.symm, h2⟩)
  · exact Or.inr (Or.inl h)

theorem pairLe_trans {β : Type} [LinearOrder β] {x y z : β × β}
    (h1 : pairLe x y) (h2 : pairLe y z) : pairLe x z := by
  unfold pairLe at h1 h2 ⊢
  rcases h1 with h1 | ⟨h1, h1b⟩ <;> rcases h2 with h2 | ⟨h2, h2b⟩
  · exact Or.inl (h1.trans h2)
  · exact Or.inl (h2 ▸ h1)
  · exact Or.inl (h1 ▸ h2)
  · exact Or.inr ⟨h1.trans h2, h1b.trans h2b⟩

/-- The key-comparison relation `fun a b => key(a) <= key(b)` used when
modelling Python's `sorted(..., key=...)`. -/
def leByKey {α : Type} {β : Type} [LinearOrder β] (k : α → β × β)
    (a b : α) : Prop :=
  pairLe (k a) (k b)

instance leByKey.dec {α β : Type} [LinearOrder β] (k : α → β × β) :
    DecidableRel (leByKey k) := by
  unfold leByKey; infer_instance

instance leByKey.isTotal {α β : Type} [LinearOrder β] (k : α → β × β) :
    IsTotal α (leByKey k) :=
  ⟨fun a b => pairLe_total (k a) (k b)⟩

instance leByKey.isTrans {α β : Type} [LinearOrder β] (k : α → β × β) :
    IsTrans α (leByKey k) :=
  ⟨fun _ _ _ h1 h2 => pairLe_trans h1 h2⟩

/-- Model of Python's `sorted(l, key=k)` for 2-tuple-valued keys: the
stable ascending sort, computed by insertion sort with the non-strict
comparison on keys. -/
def pySorted {α β : Type} [LinearOrder β] (k : α → β × β) (l : List α) :
    List α :=
  List.insertionSort (leByKey k) l

/-! ## The rename engine (`_rename`) -/

/-- One S3 mutation issued by the rename engine:
`_copy_key(old, new)` (a `PUT` with `x-amz-copy-source`) or
`_delete_key(key)` (a `DELETE`). -/
inductive S3Op : Type
  | copyOp (src dst : String) : S3Op
  | delOp (key : String) : S3Op
deriving DecidableEq, Repr

def S3Op.isCopy : S3Op → Bool
  | .copyOp _ _ => true
  | .delOp _ => false

/-- `replace_key_prefix(string) = new_key + string[len(old_key):]`. -/
def replaceKeyPfx (oldKey newKey s : String) : String :=
  newKey ++ String.mk (s.data.drop oldKey.data.length)

/-- `object_key = [] if type == "directory" else [(old_key, new_key)]`
in `_rename`. -/
def renameObjectKey (isDir : Bool) (oldKey newKey : String) :
    List (String × String) :=
  if isDir then [] else [(oldKey, newKey)]

/-- `renames = object_key + [(key, replace_key_prefix(key)) for key in
descendants]` where `descendants` are the keys listed under
`old_key + "/"`. -/
def renamePairs (isDir : Bool) (oldKey newKey : String)
    (descKeys : List String) : List (String × String) :=
  renameObjectKey isDir oldKey newKey
    ++ descKeys.map (fun k => (k, replaceKeyPfx oldKey newKey k))

/-- The pairs traversed by the copy loop of `_rename`:
`object_key + sorted(renames, key=lambda k: _copy_sort_key(k[0]))`. -/
def renameCopies (isDir : Bool) (oldKey newKey : String)
    (descKeys : List String) : List (String × String) :=
  renameObjectKey isDir oldKey newKey
    ++ pySorted (fun p => _copy_sort_key p.1)
        (renamePairs isDir oldKey newKey descKeys)

/-- The pairs traversed by the delete loop of `_rename`:
`sorted(renames, key=lambda k: _delete_sort_key(k[0])) + object_key`. -/
def renameDeletes (isDir : Bool) (oldKey newKey : String)
    (descKeys : List String) : List (String × String) :=
  pySorted (fun p => _delete_sort_key p.1)
      (renamePairs isDir oldKey newKey descKeys)
    ++ renameObjectKey isDir oldKey newKey

/-- The full sequence of S3 mutations `_rename` issues: first the copy
loop (`_copy_key` on each pair), then — only if every copy succeeded —
the delete loop (`_delete_key` on each pair's first component). -/
def _rename (isDir : Bool) (oldKey newKey : String)
    (descKeys : List String) : List S3Op :=
  (renameCopies isDir oldKey newKey descKeys).map
      (fun p => S3Op.copyOp p.1 p.2)
    ++ (renameDeletes isDir oldKey newKey descKeys).map
      (fun p => S3Op.delOp p.1)

/-! ### Lemmas about the rename orderings -/

theorem slashCount_lt_of_desc {oldKey d : String}
    (h : (oldKey ++ "/").data <+: d.data) :
    slashCount oldKey < slashCount d := by
  obtain ⟨t, ht⟩ := h
  have hdata : (oldKey ++ "/").data = oldKey.data ++ ['/'] := by
    simp [String.data_append]
  unfold slashCount
  rw [← ht, hdata]
  simp [List.countP_append]

theorem pairLe_refl {β : Type} [LinearOrder β] (x : β × β) : pairLe x x :=
  Or.inr ⟨rfl, le_refl _⟩

/-- Every pair in the rename set has copy-sort key at least that of the
source's own key, provided the descendants were listed under
`old_key + "/"`. -/
theorem copyKey_le_renamePairs (isDir : Bool) (oldKey newKey : String)
    (descKeys : List String)
    (hdesc : ∀ d ∈ descKeys, (oldKey ++ "/").data <+: d.data) :
    ∀ p ∈ renamePairs isDir oldKey newKey descKeys,
      pairLe (_copy_sort_key oldKey) (_copy_sort_key p.1) := by
  intro p hp
  unfold renamePairs renameObjectKey at hp
  rcases List.mem_append.mp hp with hobj | hmap
  · rcases isDir with _ | _
    · simp at hobj
      rw [hobj]
      exact pairLe_refl _
    · simp at hobj
  · obtain ⟨d, hd, hpd⟩ := List.mem_map.mp hmap
    have hlt := slashCount_lt_of_desc (hdesc d hd)
    rw [← hpd]
    exact Or.inl hlt

/-- Every pair in the rename set has delete-sort key at most that of the
source's own key. -/
theorem delKey_le_renamePairs (isDir : Bool) (oldKey newKey : String)
    (descKeys : List String)
    (hdesc : ∀ d ∈ descKeys, (oldKey ++ "/").data <+: d.data) :
    ∀ p ∈ renamePairs isDir oldKey newKey descKeys,
      pairLe (_delete_sort_key p.1) (_delete_sort_key oldKey) := by
  intro p hp
  have h := copyKey_le_renamePairs isDir oldKey newKey descKeys hdesc p hp
  unfold _delete_sort_key
  rcases h with h | ⟨h1, h2⟩
  · exact Or.inl (by simpa [_copy_sort_key] using h)
  · refine Or.inr ⟨?_, ?_⟩
    · simp only [_copy_sort_key] at h1
      omega
    · simpa using h2

/-- C1 (amended): for every rename over a rename set of (old key, new
key) pairs whose descendant keys all lie under `old_key + "/"`, the
engine issues all copy operations before any delete operation; the copy
sequence is nondecreasing in `_copy_sort_key` (slash count, then
directories before files), and the delete sequence is nondecreasing in
`_delete_sort_key` — i.e. nonincreasing in `_copy_sort_key` (deepest /
file entries first, directory markers last).  The deletes are *not* in
general the exact reverse of the copies: Python's `sorted` is stable, so
keys of equal depth are deleted in copy order, not reversed
(see the counterexample theorem). -/
theorem rename_copies_before_deletes_and_ordered (isDir : Bool)
    (oldKey newKey : String) (descKeys : List String)
    (hdesc : ∀ d ∈ descKeys, (oldKey ++ "/").data <+: d.data) :
    (∃ cs ds, _rename isDir oldKey newKey descKeys = cs ++ ds
        ∧ (∀ o ∈ cs, o.isCopy = true) ∧ (∀ o ∈ ds, o.isCopy = false))
    ∧ List.Sorted (leByKey (fun p => _copy_sort_key p.1))
        (renameCopies isDir oldKey newKey descKeys)
    ∧ List.Sorted (leByKey (fun p => _delete_sort_key p.1))
        (renameDeletes isDir oldKey newKey descKeys) := by
  refine ⟨⟨_, _, rfl, ?_, ?_⟩, ?_, ?_⟩
  · intro o ho
    obtain ⟨p, _, hpo⟩ := List.mem_map.mp ho
    rw [← hpo]
    rfl
  · intro o ho
    obtain ⟨p, _, hpo⟩ := List.mem_map.mp ho
    rw [← hpo]
    rfl
  · unfold renameCopies pySorted
    refine List.pairwise_append.mpr ⟨?_, ?_, ?_⟩
    · unfold renameObjectKey
      rcases isDir with _ | _ <;> simp
    · exact List.sorted_insertionSort _ _
    · intro x hx y hy
      have hxval : x = (oldKey, newKey) := by
        unfold renameObjectKey at hx
        rcases isDir with _ | _
        · simpa using hx
        · simp at hx
      have hy2 : y ∈ renamePairs isDir oldKey newKey descKeys :=
        (List.perm_insertionSort _ _).mem_iff.mp hy
      have := copyKey_le_renamePairs isDir oldKey newKey descKeys hdesc y hy2
      unfold leByKey
      rw [hxval]
      exact this
  · unfold renameDeletes pySorted
    refine List.pairwise_append.mpr ⟨?_, ?_, ?_⟩
    · exact List.sorted_insertionSort _ _
    · unfold renameObjectKey
      rcases isDir with _ | _ <;> simp
    · intro x hx y hy
      have hyval : y = (oldKey, newKey) := by
        unfold renameObjectKey at hy
        rcases isDir with _ | _
        · simpa using hy
        · simp at hy
      have hx2 : x ∈ renamePairs isDir oldKey newKey descKeys :=
        (List.perm_insertionSort _ _).mem_iff.mp hx
      have := delKey_le_renamePairs isDir oldKey newKey descKeys hdesc x hx2
      unfold leByKey
      rw [hyval]
      exact this

/-- Witness for the C1 theorem: renaming file key `"a"` to `"b"` with
one descendant key `"a/x"` satisfies the descendant hypothesis, and the
copies-before-deletes / ordering conclusions hold there. -/
theorem rename_copies_before_deletes_and_ordered_witness :
    (∀ d ∈ ["a/x"], (("a" : String) ++ "/").data <+: d.data)
    ∧ ((∃ cs ds, _rename false "a" "b" ["a/x"] = cs ++ ds
          ∧ (∀ o ∈ cs, o.isCopy = true) ∧ (∀ o ∈ ds, o.isCopy = false))
        ∧ List.Sorted (leByKey (fun p => _copy_sort_key p.1))
            (renameCopies false "a" "b" ["a/x"])
        ∧ List.Sorted (leByKey (fun p => _delete_sort_key p.1))
            (renameDeletes false "a" "b" ["a/x"])) :=
  ⟨by decide,
    rename_copies_before_deletes_and_ordered false "a" "b" ["a/x"] (by decide)⟩

/-- C1 counterexample: renaming directory key `"d"` to `"e"` with two
equal-depth descendant file keys `"d/a"` and `"d/b"` deletes them in the
order `["d/a", "d/b"]`, while the exact reverse of the copy order would
be `["d/b", "d/a"]`: Python's stable `sorted` preserves, rather than
reverses, the relative order of keys with equal
`(slash count, directory-before-file)` rank, so the delete sequence is
not the exact reverse of the copy sequence as the claim states. -/
theorem rename_deletes_not_exact_reverse_of_copies :
    (renameDeletes true "d" "e" ["d/a", "d/b"]).map Prod.fst
      ≠ ((renameCopies true "d" "e" ["d/a", "d/b"]).map Prod.fst).reverse := by
  decide

/-! ## The text codec (`content.encode("utf-8")` / `bytes.decode("utf-8")`)

A Python string is modelled as its list of Unicode code points
(`List Nat`); Python `bytes` as a `List Nat` of byte values.  The
stdlib UTF-8 codec used by `_save_file_text` / `_get_file_text` is
modelled by the standard UTF-8 encoder and strict decoder below. -/

/-- A Unicode scalar value: what the characters of a Python string that
`str.encode("utf-8")` accepts are (no lone surrogates). -/
def validCodepoint (n : Nat) : Prop :=
  n < 0x110000 ∧ ¬(0xD800 ≤ n ∧ n < 0xE000)

/-- UTF-8 encoding of a single code point. -/
def utf8EncodeChar (n : Nat) : List Nat :=
  if n < 0x80 then [n]
  else if n < 0x800 then [0xC0 + n / 64, 0x80 + n % 64]
  else if n < 0x10000 then
    [0xE0 + n / 4096, 0x80 + n / 64 % 64, 0x80 + n % 64]
  else
    [0xF0 + n / 262144, 0x80 + n / 4096 % 64, 0x80 + n / 64 % 64,
      0x80 + n % 64]

/-- `str.encode("utf-8")`. -/
def utf8Encode (s : List Nat) : List Nat :=
  (s.map utf8EncodeChar).flatten

/-- Decode a 2-byte UTF-8 sequence (lead byte already range-checked). -/
def utf8Decode2 (b0 b1 : Nat) : Option Nat :=
  if 0x80 <= b1 ∧ b1 < 0xC0 then some ((b0 - 0xC0) * 64 + (b1 - 0x80))
  else none

/-- Decode a 3-byte UTF-8 sequence, rejecting overlong forms and
surrogates as CPython's strict codec does. -/
def utf8Decode3 (b0 b1 b2 : Nat) : Option Nat :=
  if (0x80 <= b1 ∧ b1 < 0xC0) ∧ (0x80 <= b2 ∧ b2 < 0xC0) then
    if 0x800 <= (b0 - 0xE0) * 4096 + (b1 - 0x80) * 64 + (b2 - 0x80)
        ∧ ¬(0xD800 <= (b0 - 0xE0) * 4096 + (b1 - 0x80) * 64 + (b2 - 0x80)
            ∧ (b0 - 0xE0) * 4096 + (b1 - 0x80) * 64 + (b2 - 0x80) < 0xE000) then
      some ((b0 - 0xE0) * 4096 + (b1 - 0x80) * 64 + (b2 - 0x80))
    else none
  else none

/-- Decode a 4-byte UTF-8 sequence, rejecting overlong and
out-of-range values. -/
def utf8Decode4 (b0 b1 b2 b3 : Nat) : Option Nat :=
  if (0x80 <= b1 ∧ b1 < 0xC0) ∧ (0x80 <= b2 ∧ b2 < 0xC0)
      ∧ (0x80 <= b3 ∧ b3 < 0xC0) then
    if 0x10000 <= (b0 - 0xF0) * 262144 + (b1 - 0x80) * 4096
          + (b2 - 0x80) * 64 + (b3 - 0x80)
        ∧ (b0 - 0xF0) * 262144 + (b1 - 0x80) * 4096
          + (b2 - 0x80) * 64 + (b3 - 0x80) < 0x110000 then
      some ((b0 - 0xF0) * 262144 + (b1 - 0x80) * 4096
        + (b2 - 0x80) * 64 + (b3 - 0x80))
    else none
  else none

/-- Decode one code point from the front of a byte list, returning it
with the remaining bytes (strict UTF-8: stray continuation bytes,
overlong forms, surrogates and out-of-range values are rejected, as in
CPython's strict codec). -/
def utf8Step : List Nat → Option (Nat × List Nat)
  | [] => none
  | b0 :: rest =>
    if b0 < 0x80 then some (b0, rest)
    else if b0 < 0xC2 then none
    else if b0 < 0xE0 then
      match rest with
      | b1 :: rest1 => (utf8Decode2 b0 b1).map (fun n => (n, rest1))
      | [] => none
    else if b0 < 0xF0 then
      match rest with
      | b1 :: b2 :: rest2 => (utf8Decode3 b0 b1 b2).map (fun n => (n, rest2))
      | _ => none
    else if b0 < 0xF5 then
      match rest with
      | b1 :: b2 :: b3 :: rest3 =>
        (utf8Decode4 b0 b1 b2 b3).map (fun n => (n, rest3))
      | _ => none
    else none

/-- Fueled loop of the strict UTF-8 decoder; the fuel only has to cover
the number of bytes. -/
def utf8DecodeAux : Nat → List Nat → Option (List Nat)
  | _, [] => some []
  | 0, _ :: _ => none
  | fuel + 1, b0 :: rest =>
    match utf8Step (b0 :: rest) with
    | some (n, rest2) => (utf8DecodeAux fuel rest2).map (fun cs => n :: cs)
    | none => none

/-- `bytes.decode("utf-8")` with the strict (default) error handler. -/
def utf8Decode (l : List Nat) : Option (List Nat) :=
  utf8DecodeAux l.length l

theorem utf8Step_encodeChar (n : Nat) (h : validCodepoint n) (rest : List Nat) :
    utf8Step (utf8EncodeChar n ++ rest) = some (n, rest) := by
  obtain ⟨hlt, hsur⟩ := h
  unfold utf8EncodeChar
  by_cases h1 : n < 0x80
  · rw [if_pos h1]
    simp only [List.cons_append, List.nil_append, utf8Step]
    rw [if_pos h1]
  · by_cases h2 : n < 0x800
    · rw [if_neg h1, if_pos h2]
      simp only [List.cons_append, List.nil_append, utf8Step, utf8Decode2]
      rw [if_neg (by omega), if_neg (by omega), if_pos (by omega),
        if_pos (by refine ⟨by omega, by omega⟩)]
      simp only [Option.map_some']
      have hv : (0xC0 + n / 64 - 0xC0) * 64 + (0x80 + n % 64 - 0x80) = n := by
        omega
      rw [hv]
    · by_cases h3 : n < 0x10000
      · rw [if_neg h1, if_neg h2, if_pos h3]
        simp only [List.cons_append, List.nil_append, utf8Step, utf8Decode3]
        rw [if_neg (by omega), if_neg (by omega), if_neg (by omega),
          if_pos (by omega),
          if_pos (by refine ⟨⟨by omega, by omega⟩, by omega, by omega⟩),
          if_pos (by refine ⟨by omega, by omega⟩)]
        simp only [Option.map_some']
        have hv : (0xE0 + n / 4096 - 0xE0) * 4096
            + (0x80 + n / 64 % 64 - 0x80) * 64 + (0x80 + n % 64 - 0x80) = n := by
          omega
        rw [hv]
      · rw [if_neg h1, if_neg h2, if_neg h3]
        simp only [List.cons_append, List.nil_append, utf8Step, utf8Decode4]
        rw [if_neg (by omega), if_neg (by omega), if_neg (by omega),
          if_neg (by omega), if_pos (by omega),
          if_pos (by refine ⟨⟨by omega, by omega⟩, ⟨by omega, by omega⟩,
            by omega, by omega⟩),
          if_pos (by refine ⟨by omega, by omega⟩)]
        simp only [Option.map_some']
        have hv : (0xF0 + n / 262144 - 0xF0) * 262144
            + (0x80 + n / 4096 % 64 - 0x80) * 4096
            + (0x80 + n / 64 % 64 - 0x80) * 64 + (0x80 + n % 64 - 0x80) = n := by
          omega
        rw [hv]

theorem utf8EncodeChar_length_pos (n : Nat) :
    0 < (utf8EncodeChar n).length := by
  unfold utf8EncodeChar
  split_ifs <;> simp

theorem utf8DecodeAux_cons (fuel b0 : Nat) (rest : List Nat) :
    utf8DecodeAux (fuel + 1) (b0 :: rest) =
      match utf8Step (b0 :: rest) with
      | some (n, rest2) => (utf8DecodeAux fuel rest2).map (fun cs => n :: cs)
      | none => none :=
  rfl

theorem utf8DecodeAux_encode (s : List Nat)
    (h : ∀ c ∈ s, validCodepoint c) :
    ∀ fuel, (utf8Encode s).length ≤ fuel →
      utf8DecodeAux fuel (utf8Encode s) = some s := by
  induction s with
  | nil =>
    intro fuel _
    cases fuel <;> rfl
  | cons c cs ih =>
    intro fuel hfuel
    have hc : validCodepoint c := h c (by simp)
    have hcs : ∀ x ∈ cs, validCodepoint x := fun x hx => h x (by simp [hx])
    have henc : utf8Encode (c :: cs) = utf8EncodeChar c ++ utf8Encode cs := by
      simp [utf8Encode]
    rw [henc] at hfuel ⊢
    have hpos := utf8EncodeChar_length_pos c
    have hlen : (utf8EncodeChar c ++ utf8Encode cs).length
        = (utf8EncodeChar c).length + (utf8Encode cs).length := by
      simp
    cases henum : utf8EncodeChar c with
    | nil => rw [henum] at hpos; simp at hpos
    | cons b t =>
      have hstep := utf8Step_encodeChar c hc (utf8Encode cs)
      rw [henum] at hstep
      rcases fuel with _ | f
      · simp [henum] at hfuel
      · simp only [List.cons_append] at hstep ⊢
        rw [utf8DecodeAux_cons, hstep]
        have hrest : (utf8Encode cs).length ≤ f := by
          simp [List.length_append] at hfuel
          omega
        show (utf8DecodeAux f (utf8Encode cs)).map (fun x => c :: x)
          = some (c :: cs)
        rw [ih hcs f hrest]
        rfl

/-- UTF-8 round trip: decoding the encoding of any sequence of Unicode
scalar values returns it unchanged (`s.encode("utf-8").decode("utf-8")
== s`). -/
theorem utf8_roundtrip (s : List Nat) (h : ∀ c ∈ s, validCodepoint c) :
    utf8Decode (utf8Encode s) = some s :=
  utf8DecodeAux_encode s h _ le_rfl

/-! ## The base64 codec (`base64.b64encode` / `base64.b64decode`)

Used by `_get_file_base64` (encodes the fetched bytes) and
`_save_file_base64` (decodes the model content before the `PUT`). -/

/-- The standard base64 alphabet. -/
def b64chars : List Char :=
  ['A', 'B', 'C', 'D', 'E', 'F', 'G', 'H', 'I', 'J', 'K', 'L', 'M',
   'N', 'O', 'P', 'Q', 'R', 'S', 'T', 'U', 'V', 'W', 'X', 'Y', 'Z',
   'a', 'b', 'c', 'd', 'e', 'f', 'g', 'h', 'i', 'j', 'k', 'l', 'm',
   'n', 'o', 'p', 'q', 'r', 's', 't', 'u', 'v', 'w', 'x', 'y', 'z',
   '0', '1', '2', '3', '4', '5', '6', '7', '8', '9', '+', '/']

/-- Encode one 6-bit group as a base64 character. -/
def encC (n : Nat) : Char :=
  b64chars.getD n 'A'

def decCAux : List Char → Nat → Char → Option Nat
  | [], _, _ => none
  | d :: rest, i, c => if d = c then some i else decCAux rest (i + 1) c

/-- Index of a character in the base64 alphabet. -/
def decC (c : Char) : Option Nat :=
  decCAux b64chars 0 c

/-- `base64.b64encode`: 3 bytes to 4 characters, with `=` padding. -/
def b64Encode : List Nat → List Char
  | b0 :: b1 :: b2 :: rest =>
    encC (b0 / 4) :: encC ((b0 % 4) * 16 + b1 / 16)
      :: encC ((b1 % 16) * 4 + b2 / 64) :: encC (b2 % 64) :: b64Encode rest
  | [b0, b1] =>
    [encC (b0 / 4), encC ((b0 % 4) * 16 + b1 / 16), encC ((b1 % 16) * 4), '=']
  | [b0] => [encC (b0 / 4), encC ((b0 % 4) * 16), '=', '=']
  | [] => []

/-- Decode a final group of 2 characters (`xx==`) into 1 byte. -/
def b64Quad2 (a b : Char) : Option (List Nat) :=
  (decC a).bind fun s0 => (decC b).map fun s1 => [s0 * 4 + s1 / 16]

/-- Decode a final group of 3 characters (`xxx=`) into 2 bytes. -/
def b64Quad3 (a b c : Char) : Option (List Nat) :=
  (decC a).bind fun s0 => (decC b).bind fun s1 => (decC c).map fun s2 =>
    [s0 * 4 + s1 / 16, (s1 % 16) * 16 + s2 / 4]

/-- Decode a full group of 4 characters into 3 bytes. -/
def b64Quad (a b c d : Char) : Option (List Nat) :=
  (decC a).bind fun s0 => (decC b).bind fun s1 => (decC c).bind fun s2 =>
    (decC d).map fun s3 =>
      [s0 * 4 + s1 / 16, (s1 % 16) * 16 + s2 / 4, (s2 % 4) * 64 + s3]

/-- `base64.b64decode` on correctly padded input: groups of 4
characters, `=` padding allowed only in the final group. -/
def b64Decode : List Char → Option (List Nat)
  | [] => some []
  | a :: b :: c :: d :: rest =>
    if c = '=' ∧ d = '=' ∧ rest = [] then b64Quad2 a b
    else if d = '=' ∧ rest = [] then b64Quad3 a b c
    else (b64Quad a b c d).bind fun bs =>
      (b64Decode rest).map fun tl => bs ++ tl
  | _ => none

theorem decC_encC : ∀ s, s < 64 → decC (encC s) = some s := by decide

theorem encC_ne_pad : ∀ s, s < 64 → encC s ≠ '=' := by decide

/-- Base64 round trip: decoding the encoding of any byte sequence
returns it unchanged (`base64.b64decode(base64.b64encode(bs)) == bs`). -/
theorem b64_roundtrip : ∀ l : List Nat, (∀ x ∈ l, x < 256) →
    b64Decode (b64Encode l) = some l
  | [], _ => rfl
  | [b0], h => by
    have h0 : b0 < 256 := h b0 (by simp)
    simp only [b64Encode, b64Decode]
    rw [if_pos ⟨trivial, trivial, trivial⟩]
    unfold b64Quad2
    rw [decC_encC _ (by omega), decC_encC _ (by omega)]
    simp only [Option.some_bind', Option.map_some']
    have hv : b0 / 4 * 4 + b0 % 4 * 16 / 16 = b0 := by omega
    rw [hv]
  | [b0, b1], h => by
    have h0 : b0 < 256 := h b0 (by simp)
    have h1 : b1 < 256 := h b1 (by simp)
    simp only [b64Encode, b64Decode]
    rw [if_neg (fun hcon => encC_ne_pad _ (by omega) hcon.1),
      if_pos ⟨trivial, trivial⟩]
    unfold b64Quad3
    rw [decC_encC _ (by omega), decC_encC _ (by omega), decC_encC _ (by omega)]
    simp only [Option.some_bind', Option.map_some']
    have hv0 : b0 / 4 * 4 + (b0 % 4 * 16 + b1 / 16) / 16 = b0 := by omega
    have hv1 : (b0 % 4 * 16 + b1 / 16) % 16 * 16 + b1 % 16 * 4 / 4 = b1 := by omega
    rw [hv0, hv1]
  | b0 :: b1 :: b2 :: rest, h => by
    have h0 : b0 < 256 := h b0 (by simp)
    have h1 : b1 < 256 := h b1 (by simp)
    have h2 : b2 < 256 := h b2 (by simp)
    have ih := b64_roundtrip rest (fun x hx => h x (by simp [hx]))
    simp only [b64Encode, b64Decode]
    rw [if_neg (fun hcon => encC_ne_pad _ (by omega) hcon.1),
      if_neg (fun hcon => encC_ne_pad _ (by omega) hcon.1)]
    unfold b64Quad
    rw [decC_encC _ (by omega), decC_encC _ (by omega), decC_encC _ (by omega),
      decC_encC _ (by omega), ih]
    simp only [Option.some_bind', Option.map_some']
    have hv0 : b0 / 4 * 4 + (b0 % 4 * 16 + b1 / 16) / 16 = b0 := by omega
    have hv1 : (b0 % 4 * 16 + b1 / 16) % 16 * 16 + (b1 % 16 * 4 + b2 / 64) / 4 = b1 := by
      omega
    have hv2 : (b1 % 16 * 4 + b2 / 64) % 4 * 64 + b2 % 64 = b2 := by omega
    rw [hv0, hv1, hv2]
    rfl

/-! ## JSON values and the notebook normalisation (`_clean_json`) -/

/-- JSON values (Python's `json` module data model); strings are lists
of characters, objects are ordered association lists as Python dicts
are. -/
inductive Json : Type
  | null : Json
  | bool (b : Bool) : Json
  | num (n : Int) : Json
  | str (s : List Char) : Json
  | arr (l : List Json) : Json
  | obj (kvs : List (String × Json)) : Json

/-- Association-list lookup: reading a Python dict entry (`d[key]`),
`none` for a `KeyError`. -/
def alGet {α : Type} : List (String × α) → String → Option α
  | [], _ => none
  | (k, v) :: rest, key => if k = key then some v else alGet rest key

/-- Association-list update: `d[key] = value`. -/
def alSet {α : Type} : List (String × α) → String → α → List (String × α)
  | [], key, v => [(key, v)]
  | (k, w) :: rest, key, v =>
    if k = key then (k, v) :: rest else (k, w) :: alSet rest key v

/-- Concatenating the elements of a cell's list-form `source`
(`stringified += source` over the list): all elements must be strings,
otherwise Python raises `TypeError` (modelled as `none`). -/
def joinStrSources : List Json → Option (List Char)
  | [] => some []
  | .str s :: rest => (joinStrSources rest).map (fun t => s ++ t)
  | _ => none

/-- What the loop body of `_clean_json` does to one cell's `source`
value: iterating a JSON string yields its characters, which are
re-concatenated into the same string; iterating a list concatenates its
(string) elements; an empty iteration leaves the field untouched (so an
empty list stays a list); iterating any other value raises (`none`). -/
def cleanSource : Json → Option Json
  | .str s => some (.str ((s.map (fun c => [c])).flatten))
  | .arr [] => some (.arr [])
  | .arr l => (joinStrSources l).map .str
  | _ => none

/-- `_clean_json` on one cell: read `cell["source"]` (`KeyError` if
missing), normalise it, and write it back. -/
def cleanCell : Json → Option Json
  | .obj kvs =>
    match alGet kvs "source" with
    | some src => (cleanSource src).map (fun s => .obj (alSet kvs "source" s))
    | none => none
  | _ => none

/-- The loop of `_clean_json` over `nb["cells"]`. -/
def cleanCells : List Json → Option (List Json)
  | [] => some []
  | c :: rest =>
    match cleanCell c, cleanCells rest with
    | some c2, some r2 => some (c2 :: r2)
    | _, _ => none

/-- `_clean_json(nb)`: normalise every cell's `source` from a sequence
of line fragments into one concatenated string. -/
def _clean_json : Json → Option Json
  | .obj kvs =>
    match alGet kvs "cells" with
    | some (.arr cells) =>
      (cleanCells cells).map (fun cs => .obj (alSet kvs "cells" (.arr cs)))
    | _ => none
  | _ => none

/-! ## Save/get pipelines per (type, format) pair -/

/-- The S3 bucket modelled as an association list from object keys to
byte contents. -/
def Store : Type := List (String × List Nat)

/-- `_save_file_text`: `PUT` of `content.encode("utf-8")` at
`_key(path)` (via `_save_any` / `_save_bytes` with no chunk). -/
def _save_file_text (pfx : String) (st : Store) (path : String)
    (content : List Nat) : Store :=
  alSet st (_key pfx path) (utf8Encode content)

/-- `_get_file_text`: `GET` of `_key(path)`, decoded as UTF-8 (the
`decode` callback passed to `_get_any`); `none` when the key is absent
or the bytes are not valid UTF-8. -/
def _get_file_text (pfx : String) (st : Store) (path : String) :
    Option (List Nat) :=
  (alGet st (_key pfx path)).bind utf8Decode

/-- `_save_file_base64`: the content is `base64.b64decode`d and the
bytes are `PUT`; `none` when the content is not valid base64. -/
def _save_file_base64 (pfx : String) (st : Store) (path : String)
    (content : List Char) : Option Store :=
  (b64Decode content).map (fun bs => alSet st (_key pfx path) bs)

/-- `_get_file_base64`: `GET` then `base64.b64encode` of the bytes. -/
def _get_file_base64 (pfx : String) (st : Store) (path : String) :
    Option (List Char) :=
  (alGet st (_key pfx path)).map b64Encode

/-- A store of notebook payloads: for the (notebook, json) pair the
byte payload is `json.dumps(content)`; the stdlib `json.dumps` /
`json.loads` pair (external to this repository) is modelled as
lossless, so this store holds the JSON value itself. -/
def NbStore : Type := List (String × Json)

/-- `_save_notebook`: `json.dumps(content)` then `PUT` at `_key(path)`. -/
def _save_notebook (pfx : String) (st : NbStore) (path : String)
    (content : Json) : NbStore :=
  alSet st (_key pfx path) content

/-- `_get_notebook`: `GET`, `json.loads`, then `_clean_json` (then
`nbformat.from_dict`, which only wraps the dict). -/
def _get_notebook (pfx : String) (st : NbStore) (path : String) :
    Option Json :=
  (alGet st (_key pfx path)).bind _clean_json

/-- `_save_directory`: saves the empty body `b""` at
`path + DIRECTORY_SUFFIX`, ignoring the model content entirely. -/
def _save_directory (pfx : String) (st : Store) (path : String)
    (_content : Json) : Store :=
  alSet st (_key pfx (path ++ "/")) []

/-! ### Lemmas for the round-trip theorems -/

theorem flatten_map_singleton {α : Type} (l : List α) :
    (l.map (fun c => [c])).flatten = l := by
  induction l <;> simp_all

theorem cleanSource_str (s : List Char) :
    cleanSource (.str s) = some (.str s) := by
  simp [cleanSource, flatten_map_singleton]

theorem alGet_alSet {α : Type} (st : List (String × α)) (k : String)
    (v : α) : alGet (alSet st k v) k = some v := by
  induction st with
  | nil => simp [alGet, alSet]
  | cons p rest ih =>
    obtain ⟨pk, pv⟩ := p
    by_cases hk : pk = k
    · simp [alGet, alSet, hk]
    · simp [alGet, alSet, hk, ih]

theorem alSet_self {α : Type} (kvs : List (String × α)) (k : String)
    (v : α) (h : alGet kvs k = some v) : alSet kvs k v = kvs := by
  induction kvs with
  | nil => simp [alGet] at h
  | cons p rest ih =>
    obtain ⟨pk, pv⟩ := p
    by_cases hk : pk = k
    · simp [alGet, hk] at h
      simp [alSet, hk, h]
    · simp [alGet, hk] at h
      simp [alSet, hk, ih h]

/-- A notebook value in normalised form: a JSON object with a `cells`
list whose every cell is an object whose `source` is a single string. -/
def normalizedNotebook (nb : Json) : Prop :=
  ∃ kvs cells, nb = .obj kvs ∧ alGet kvs "cells" = some (.arr cells)
    ∧ ∀ cell ∈ cells, ∃ ckvs s, cell = .obj ckvs
      ∧ alGet ckvs "source" = some (.str s)

theorem cleanCell_normalized (cell : Json)
    (h : ∃ ckvs s, cell = Json.obj ckvs
      ∧ alGet ckvs "source" = some (.str s)) :
    cleanCell cell = some cell := by
  obtain ⟨ckvs, s, rfl, hsrc⟩ := h
  simp [cleanCell, hsrc, cleanSource_str, alSet_self ckvs "source" _ hsrc]

theorem cleanCells_normalized (cells : List Json)
    (h : ∀ cell ∈ cells, ∃ ckvs s, cell = Json.obj ckvs
      ∧ alGet ckvs "source" = some (.str s)) :
    cleanCells cells = some cells := by
  induction cells with
  | nil => rfl
  | cons c rest ih =>
    have hc := cleanCell_normalized c (h c (by simp))
    have hr := ih (fun cell hc2 => h cell (by simp [hc2]))
    simp [cleanCells, hc, hr]

theorem clean_json_normalized (nb : Json) (h : normalizedNotebook nb) :
    _clean_json nb = some nb := by
  obtain ⟨kvs, cells, rfl, hcells, hall⟩ := h
  simp [_clean_json, hcells, cleanCells_normalized cells hall,
    alSet_self kvs "cells" _ hcells]

instance validCodepoint.dec (n : Nat) : Decidable (validCodepoint n) := by
  unfold validCodepoint; infer_instance

/-- A normalised notebook used as a concrete witness input. -/
def nbNormal : Json :=
  .obj [("cells", .arr [.obj [("source", .str ['a', 'b'])]])]

theorem nbNormal_normalized : normalizedNotebook nbNormal := by
  refine ⟨_, _, rfl, rfl, ?_⟩
  intro cell hc
  simp only [List.mem_singleton] at hc
  subst hc
  exact ⟨[("source", .str ['a', 'b'])], ['a', 'b'], rfl, rfl⟩

/-- A notebook whose cell `source` is a list of line fragments, used to
refute the round-trip claim for the (notebook, json) pair. -/
def nbListSource : Json :=
  .obj [("cells", .arr [.obj [("source", .arr [.str ['a'], .str ['b']])]])]

/-- C2 (amended): save followed by get returns content identical to the
saved input for (file, text) with any Unicode string content, for
(file, base64) with canonical base64 content (the encoding of some byte
sequence), and for (notebook, json) whose cells' `source` fields are
single strings.  For list-form notebook sources get returns the
`_clean_json`-normalised value instead (see the counterexample), and
for (directory, json) the saver writes an empty marker object ignoring
the content entirely, so no content round-trip applies there. -/
theorem save_then_get_returns_content (pfx path : String) :
    (∀ (st : Store) (content : List Nat),
        (∀ c ∈ content, validCodepoint c) →
        _get_file_text pfx (_save_file_text pfx st path content) path
          = some content)
    ∧ (∀ (st : Store) (bs : List Nat), (∀ x ∈ bs, x < 256) →
        ∃ st2, _save_file_base64 pfx st path (b64Encode bs) = some st2
          ∧ _get_file_base64 pfx st2 path = some (b64Encode bs))
    ∧ (∀ (st : NbStore) (nb : Json), normalizedNotebook nb →
        _get_notebook pfx (_save_notebook pfx st path nb) path = some nb)
    ∧ (∀ (st : Store) (content : Json),
        _save_directory pfx st path content
          = alSet st (_key pfx (path ++ "/")) []) := by
  refine ⟨?_, ?_, ?_, ?_⟩
  · intro st content hval
    unfold _get_file_text _save_file_text
    rw [alGet_alSet]
    show utf8Decode (utf8Encode content) = some content
    exact utf8_roundtrip content hval
  · intro st bs hbs
    refine ⟨alSet st (_key pfx path) bs, ?_, ?_⟩
    · unfold _save_file_base64
      rw [b64_roundtrip bs hbs]
      rfl
    · unfold _get_file_base64
      rw [alGet_alSet]
      rfl
  · intro st nb hnb
    unfold _get_notebook _save_notebook
    rw [alGet_alSet]
    show _clean_json nb = some nb
    exact clean_json_normalized nb hnb
  · intro st content
    rfl

/-- Witness for the C2 theorem: concrete text, base64 and notebook
round trips through a prefixed store. -/
theorem save_then_get_returns_content_witness :
    ((∀ c ∈ [104, 8364], validCodepoint c)
      ∧ _get_file_text "p/" (_save_file_text "p/" [] "/a.txt" [104, 8364])
          "/a.txt" = some [104, 8364])
    ∧ ((∀ x ∈ [0, 255, 7], x < 256)
      ∧ ∃ st2, _save_file_base64 "p/" [] "/b.bin" (b64Encode [0, 255, 7])
            = some st2
          ∧ _get_file_base64 "p/" st2 "/b.bin" = some (b64Encode [0, 255, 7]))
    ∧ (normalizedNotebook nbNormal
      ∧ _get_notebook "p/" (_save_notebook "p/" [] "/nb.ipynb" nbNormal)
          "/nb.ipynb" = some nbNormal) :=
  ⟨⟨by decide,
      (save_then_get_returns_content "p/" "/a.txt").1 [] [104, 8364]
        (by decide)⟩,
    ⟨by decide,
      (save_then_get_returns_content "p/" "/b.bin").2.1 [] [0, 255, 7]
        (by decide)⟩,
    ⟨nbNormal_normalized,
      (save_then_get_returns_content "p/" "/nb.ipynb").2.2.1 [] nbNormal
        nbNormal_normalized⟩⟩

/-- C2 counterexample: a well-formed notebook whose cell `source` is
the fragment list `["a", "b"]` does not round-trip: `_clean_json`
replaces the list by the concatenated string `"ab"` on get, so the
returned content differs from the saved input. -/
theorem notebook_save_get_changes_list_sources :
    _get_notebook "" (_save_notebook "" [] "/nb.ipynb" nbListSource)
      "/nb.ipynb" ≠ some nbListSource := by
  intro h
  rw [show _get_notebook "" (_save_notebook "" [] "/nb.ipynb" nbListSource)
        "/nb.ipynb"
      = some (.obj [("cells", .arr [.obj [("source", .str ['a', 'b'])]])])
    from rfl] at h
  simp [nbListSource] at h

/-! ## `_get`: translation of fetch errors (C3) -/

/-- An error surfaced by `_get`: a tornado `HTTPServerError` raised by
the translation, or the original `HTTPClientError` re-raised. -/
inductive GetErr : Type
  | serverError (code : Nat) (msg : String) : GetErr
  | clientError (code : Nat) : GetErr
deriving DecidableEq

/-- The `try/except HTTPClientError` wrapper of `_get` around the
dispatched getter: when the fetch failed with status 403 or 404 it
raises `HTTPServerError(exc.response.code, "No such file or
directory")` — note the *original* code is passed through — and any
other client error propagates unchanged. -/
def getTranslateError {α : Type} (r : Except Nat α) : Except GetErr α :=
  match r with
  | .ok v => .ok v
  | .error code =>
    if code = 403 ∨ code = 404 then
      .error (.serverError code "No such file or directory")
    else .error (.clientError code)

/-! ## Transport retry (`_retryable` / `_fetch_with_retry`, C7) -/

/-- The outcome of one attempted HTTP fetch: a response, an
`HTTPClientError` with a status code (tornado reports its own request
timeout as code 599), or a built-in `TimeoutError`. -/
inductive Outcome : Type
  | ok (code : Nat) : Outcome
  | err (code : Nat) : Outcome
  | timeout : Outcome
deriving DecidableEq, Repr

/-- `_retryable(exc)`: an `HTTPClientError` with code 429, 599 or 5xx,
or a built-in `TimeoutError`, triggers a retry; a successful response
is not an exception, so the predicate is never consulted on it. -/
def _retryable : Outcome → Bool
  | .err code =>
    code == 429 || code == 599 || (decide (500 ≤ code) && decide (code < 600))
  | .timeout => true
  | .ok _ => false

/-- Whether an outcome is an exception rather than a response. -/
def Outcome.isFailure : Outcome → Bool
  | .ok _ => false
  | _ => true

/-- The result of `_fetch_with_retry`: a response, a re-raised
non-retryable exception, or tenacity's `RetryError` once the 4-attempt
budget of `stop_after_attempt(4)` is exhausted. -/
inductive FetchResult : Type
  | ok (code : Nat) : FetchResult
  | raised (o : Outcome) : FetchResult
  | retryErr (last : Outcome) : FetchResult
deriving DecidableEq, Repr

/-- `_fetch_with_retry` over a scripted sequence of attempt outcomes
with `attemptsLeft` attempts remaining in the budget; returns the
result together with the number of attempts actually made.  An
exhausted script is modelled as an immediate timeout (never exercised
by the theorems). -/
def fetchRetryAux : Nat → List Outcome → FetchResult × Nat
  | _, [] => (.raised .timeout, 0)
  | attemptsLeft, o :: rest =>
    match o with
    | .ok code => (.ok code, 1)
    | e =>
      if _retryable e then
        if attemptsLeft ≤ 1 then (.retryErr e, 1)
        else
          let r := fetchRetryAux (attemptsLeft - 1) rest
          (r.1, r.2 + 1)
      else (.raised e, 1)

/-- `_fetch_with_retry(request)`: retried up to
`stop_after_attempt(4)` attempts total under `retry_if_exception(_retryable)`. -/
def _fetch_with_retry (outcomes : List Outcome) : FetchResult × Nat :=
  fetchRetryAux 4 outcomes

theorem fetchRetryAux_success (c : Nat) (rest : List Outcome) :
    ∀ (pre : List Outcome) (budget : Nat), pre.length < budget →
      (∀ o ∈ pre, _retryable o = true) →
      fetchRetryAux budget (pre ++ .ok c :: rest) = (.ok c, pre.length + 1) := by
  intro pre
  induction pre with
  | nil => intro budget _ _; rfl
  | cons o pre2 ih =>
    intro budget hlen hretr
    have ho : _retryable o = true := hretr o (by simp)
    have hpre2 : ∀ x ∈ pre2, _retryable x = true :=
      fun x hx => hretr x (by simp [hx])
    cases o with
    | ok code => simp [_retryable] at ho
    | err code =>
      show fetchRetryAux budget (.err code :: (pre2 ++ .ok c :: rest)) = _
      rw [fetchRetryAux]
      simp only [List.length_cons] at hlen
      rw [if_pos ho, if_neg (by omega)]
      rw [ih (budget - 1) (by omega) hpre2]
      · simp [List.length_cons]
      · simp
    | timeout =>
      show fetchRetryAux budget (.timeout :: (pre2 ++ .ok c :: rest)) = _
      rw [fetchRetryAux]
      simp only [List.length_cons] at hlen
      rw [if_pos ho, if_neg (by omega)]
      rw [ih (budget - 1) (by omega) hpre2]
      · simp [List.length_cons]
      · simp

/-- C7: with the scripted transport model, a request whose first
attempts fail retryably (429/5xx/timeout) succeeds as soon as any
attempt within the 4-attempt budget returns a response, using exactly
(failures + 1) attempts — e.g. 503, 503, 200 succeeds on the third
attempt — while a non-retryable failure (anything else, including 400
and 404) propagates after exactly one attempt with no retry. -/
theorem retry_four_attempts_retryable_only (c : Nat) (rest : List Outcome) :
    (∀ (pre : List Outcome), pre.length < 4 →
      (∀ o ∈ pre, _retryable o = true) →
      _fetch_with_retry (pre ++ .ok c :: rest) = (.ok c, pre.length + 1))
    ∧ (∀ (o : Outcome), o.isFailure = true → _retryable o = false →
      _fetch_with_retry (o :: rest) = (.raised o, 1)) := by
  constructor
  · intro pre hlen hretr
    exact fetchRetryAux_success c rest pre 4 hlen hretr
  · intro o hfail hretr
    cases o with
    | ok code => simp [Outcome.isFailure] at hfail
    | err code =>
      show fetchRetryAux 4 (.err code :: rest) = _
      rw [fetchRetryAux, if_neg (by rw [hretr]; exact Bool.false_ne_true)]
      simp
    | timeout => simp [_retryable] at hretr

/-- Witness for the C7 theorem: 503, 503, 200 succeeds on the third
attempt; 400 fails on the first attempt with no retry. -/
theorem retry_four_attempts_retryable_only_witness :
    (([Outcome.err 503, Outcome.err 503] : List Outcome).length < 4
      ∧ (∀ o ∈ ([Outcome.err 503, Outcome.err 503] : List Outcome),
          _retryable o = true)
      ∧ _fetch_with_retry [.err 503, .err 503, .ok 200] = (.ok 200, 3))
    ∧ ((Outcome.err 400).isFailure = true ∧ _retryable (.err 400) = false
      ∧ _fetch_with_retry [.err 400] = (.raised (.err 400), 1)) :=
  ⟨⟨by decide, by decide,
      (retry_four_attempts_retryable_only 200 []).1
        [.err 503, .err 503] (by decide) (by decide)⟩,
    ⟨by decide, by decide,
      (retry_four_attempts_retryable_only 400 []).2 (.err 400)
        (by decide) (by decide)⟩⟩

/-! ## `_file_exists` / `_dir_exists` on the root path (C10) -/

/-- `_file_exists`: the root path short-circuits to `False` before any
S3 request; otherwise one `HEAD` request is made for the object key.
Returns the result together with the number of S3 requests issued. -/
def _file_exists (pfx : String) (keyExists : String → Bool)
    (path : String) : Bool × Nat :=
  if _is_root path then (false, 0)
  else (keyExists (_key pfx path), 1)

/-- `_dir_exists`: the root path short-circuits to `True` before any
S3 request; otherwise a legacy marker `HEAD` via
`_file_exists(path + "/")`, then — only if the marker is absent — one
listing request under the slash-terminated key. -/
def _dir_exists (pfx : String) (keyExists : String → Bool)
    (listingNonempty : String → Bool) (path : String) : Bool × Nat :=
  if _is_root path then (true, 0)
  else
    let marker := _file_exists pfx keyExists (path ++ "/")
    if marker.1 then (true, marker.2)
    else
      let keyPfx := _key pfx path
      let keyPfx2 := if endsWithSlash keyPfx then keyPfx else keyPfx ++ "/"
      (listingNonempty keyPfx2, marker.2 + 1)

/-- C10: for every root path (`""` and `"/"` both satisfy `_is_root`),
`_file_exists` returns `False` and `_dir_exists` returns `True`, each
without issuing a single store request, whatever the backend would
answer. -/
theorem root_never_file_always_directory (pfx : String)
    (keyExists listingNonempty : String → Bool) :
    (_is_root "" = true ∧ _is_root "/" = true)
    ∧ ∀ path, _is_root path = true →
        _file_exists pfx keyExists path = (false, 0)
        ∧ _dir_exists pfx keyExists listingNonempty path = (true, 0) := by
  refine ⟨⟨rfl, rfl⟩, ?_⟩
  intro path h
  unfold _file_exists _dir_exists
  rw [if_pos h, if_pos h]
  exact ⟨rfl, rfl⟩

/-- Witness for the C10 theorem: at path `"/"` against a backend that
would claim every key exists, `_file_exists` is still `(false, 0)` and
`_dir_exists` still `(true, 0)`. -/
theorem root_never_file_always_directory_witness :
    _is_root "/" = true
    ∧ _file_exists "p/" (fun _ => true) "/" = (false, 0)
    ∧ _dir_exists "p/" (fun _ => true) (fun _ => true) "/" = (true, 0) :=
  ⟨by decide,
    ((root_never_file_always_directory "p/" (fun _ => true)
        (fun _ => true)).2 "/" (by decide)).1,
    ((root_never_file_always_directory "p/" (fun _ => true)
        (fun _ => true)).2 "/" (by decide)).2⟩

/-- C3 (code bug): `_get` translates a fetch failing with 403 or 404
into `HTTPServerError(exc.response.code, "No such file or directory")`
and neither code is retryable by the transport; but because the
*original* status code is passed through, a 403 fetch raises a 403
server error while a 404 fetch raises a 404 — not the single uniform
NotFound signal that the claim, and the code's own comment ("surface as
a normal 404"), promise. -/
theorem get_403_404_translated_but_not_uniform :
    getTranslateError (α := Unit) (.error 403)
        = .error (.serverError 403 "No such file or directory")
    ∧ getTranslateError (α := Unit) (.error 404)
        = .error (.serverError 404 "No such file or directory")
    ∧ getTranslateError (α := Unit) (.error 403)
        ≠ getTranslateError (α := Unit) (.error 404)
    ∧ _retryable (.err 403) = false ∧ _retryable (.err 404) = false := by
  refine ⟨rfl, rfl, ?_, rfl, rfl⟩
  intro h
  simp [getTranslateError] at h

/-! ## `_delete` and `_delete_keys` (C4, C5) -/

/-- In `_delete`, the call `type = _type_from_path(context, path)` is
missing its `yield`: `type` is bound to a coroutine object, never a
string, so the comparison `type == "directory"` below it is always
false. -/
def deleteTypeIsDirectory : Bool := false

def chunk1000 : Nat → List String → List (List String)
  | 0, _ => []
  | fuel + 1, keys =>
    if keys = [] then []
    else keys.take 1000 :: chunk1000 fuel (keys.drop 1000)

/-- `_delete_keys(context, keys)`: one `POST /?delete` batch request
per chunk of at most 1000 keys (the loop `for i in range(0, len(keys),
1000)` produces no request at all for an empty key list). -/
def _delete_keys (keys : List String) : List (List String) :=
  chunk1000 keys.length keys

/-- `_delete(context, path)` over a store listing: only the falsy path
`""` is rejected (`if not path`); otherwise the descendant keys under
`root_key + "/"` are listed, ordered by `_delete_sort_key`, the object
key is appended (always — see `deleteTypeIsDirectory`), and the batch
deletes are issued.  No existence check of any kind is made. -/
def _delete (pfx : String) (storeKeys : List String) (path : String) :
    Except String (List (List String)) :=
  if path = "" then .error "Can't delete root"
  else
    let root_key := _key pfx path
    let object_key := if deleteTypeIsDirectory then [] else [root_key]
    let descendant_keys := storeKeys.filter
      (fun k => (root_key ++ "/").data.isPrefixOf k.data)
    let all_keys := pySorted _delete_sort_key descendant_keys ++ object_key
    .ok (_delete_keys all_keys)

/-- C4 (code bug): `_delete` rejects the empty root path with
`HTTPServerError(400, "Can't delete root")` and no store mutation, but
the other root spelling `"/"` — a root by the module's own `_is_root` —
passes the `if not path` guard and issues a batch delete request (here
of the prefix marker key `"p/"`). -/
theorem delete_rejects_empty_root_but_not_slash_root :
    _delete "p/" ["p/a.txt"] "" = .error "Can't delete root"
    ∧ _is_root "/" = true
    ∧ _delete "p/" ["p/a.txt"] "/" = .ok [["p/"]] :=
  ⟨rfl, rfl, rfl⟩

/-- C5 counterexample: deleting the absent path `"/a.txt"` over an
empty store raises nothing: it returns successfully after issuing one
batch delete of the object key, instead of the NotFound the claim
requires. -/
theorem delete_absent_path_silently_succeeds :
    _delete "p/" [] "/a.txt" = .ok [["p/a.txt"]] := rfl

/-- C5 (amended): for every non-root path with no descendant key in the
store (in particular when neither the object nor any descendant
exists), `_delete` does *not* raise NotFound: it returns successfully,
issuing exactly one batch delete containing just the object key. -/
theorem delete_absent_path_returns_ok (pfx path : String)
    (storeKeys : List String) (hpath : path ≠ "")
    (hdesc : ∀ k ∈ storeKeys,
      ¬((_key pfx path ++ "/").data.isPrefixOf k.data = true)) :
    _delete pfx storeKeys path = .ok [[_key pfx path]] := by
  unfold _delete
  rw [if_neg hpath]
  have hfilter : storeKeys.filter
      (fun k => (_key pfx path ++ "/").data.isPrefixOf k.data) = [] := by
    rw [List.filter_eq_nil_iff]
    exact hdesc
  simp only [hfilter]
  rfl

/-- Witness for the C5 theorem: deleting `"/a.txt"` over a store that
holds only an unrelated key returns success with one single-key batch. -/
theorem delete_absent_path_returns_ok_witness :
    (("/a.txt" : String) ≠ ""
      ∧ (∀ k ∈ ["p/other.txt"],
          ¬((_key "p/" "/a.txt" ++ "/").data.isPrefixOf k.data = true)))
    ∧ _delete "p/" ["p/other.txt"] "/a.txt" = .ok [[_key "p/" "/a.txt"]] :=
  ⟨⟨by decide, by decide⟩,
    delete_absent_path_returns_ok "p/" "/a.txt" ["p/other.txt"]
      (by decide) (by decide)⟩

/-! ## `ExpiringDict` and `_save_chunk` (C6) -/

/-- The state of an `ExpiringDict(seconds)`: `_store` maps keys to
`(expires, value)` pairs; time stamps are `int(time.monotonic())`
whole seconds. -/
structure ExpiringDict (α : Type) : Type where
  seconds : Nat
  store : List (String × (Nat × α))

/-- `_remove_old_keys(now)`: keep only entries with `expires > now`. -/
def removeOldKeys {α : Type} (d : ExpiringDict α) (now : Nat) :
    ExpiringDict α :=
  { d with store := d.store.filter (fun kv => decide (now < kv.2.1)) }

/-- `__getitem__`: prune expired entries, then look the key up (`none`
models the `KeyError`).  The stored expiry is *not* refreshed. -/
def edGet {α : Type} (d : ExpiringDict α) (now : Nat) (key : String) :
    Option α :=
  (alGet (removeOldKeys d now).store key).map Prod.snd

/-- `__setitem__`: prune, then store the value with a fresh expiry
`now + seconds`. -/
def edSet {α : Type} (d : ExpiringDict α) (now : Nat) (key : String)
    (v : α) : ExpiringDict α :=
  { removeOldKeys d now with
    store := alSet (removeOldKeys d now).store key (now + d.seconds, v) }

/-- Delete the first entry with the given key (`__delitem__` after the
prune;  a Python dict holds at most one entry per key). -/
def alRemove {α : Type} : List (String × α) → String → List (String × α)
  | [], _ => []
  | (k, v) :: rest, key =>
    if k = key then rest else (k, v) :: alRemove rest key

/-- `__delitem__`: prune, then delete. -/
def edDel {α : Type} (d : ExpiringDict α) (now : Nat) (key : String) :
    ExpiringDict α :=
  { removeOldKeys d now with
    store := alRemove (removeOldKeys d now).store key }

/-- `multipart_uploads[path].append(content_bytes)`: a `__getitem__`
(which prunes at `now`) followed by an in-place list mutation — the
stored expiry is left exactly as it was.  `none` models the `KeyError`
when the entry has expired or never existed. -/
def edAppend {α : Type} (d : ExpiringDict (List α)) (now : Nat)
    (key : String) (x : α) : Option (ExpiringDict (List α)) :=
  match alGet (removeOldKeys d now).store key with
  | none => none
  | some (exp, buf) =>
    some { removeOldKeys d now with
      store := alSet (removeOldKeys d now).store key (exp, buf ++ [x]) }

/-- What one `_save_chunk` call did. -/
inductive ChunkOutcome : Type
  | keyError : ChunkOutcome
  | intermediate : ChunkOutcome
  | finalSave (combined : List Nat) : ChunkOutcome
deriving DecidableEq, Repr

/-- `_save_chunk(context, chunk, content_bytes, path, ...)` acting on
`context.multipart_uploads` at time `now`: chunk 1 re-initialises the
buffer (a `__setitem__`, stamping a fresh expiry); every chunk then
appends through `__getitem__` (no expiry refresh); chunk −1 joins the
buffered segments, deletes the entry and saves the combined bytes; any
other chunk returns a synthetic wall-clock-stamped model. -/
def _save_chunk_after_init (d1 : ExpiringDict (List (List Nat)))
    (now : Nat) (chunk : Int) (content : List Nat) (path : String) :
    ExpiringDict (List (List Nat)) × ChunkOutcome :=
  match edAppend d1 now path content with
  | none => (removeOldKeys d1 now, .keyError)
  | some d2 =>
    if chunk = -1 then
      match edGet d2 now path with
      | none => (d2, .keyError)
      | some buf => (edDel d2 now path, .finalSave buf.flatten)
    else (d2, .intermediate)

def _save_chunk (d0 : ExpiringDict (List (List Nat))) (now : Nat)
    (chunk : Int) (content : List Nat) (path : String) :
    ExpiringDict (List (List Nat)) × ChunkOutcome :=
  _save_chunk_after_init (if chunk = 1 then edSet d0 now path [] else d0)
    now chunk content path

/-- The dict's keys are pairwise distinct (true of any Python dict). -/
def keysNodup {α : Type} (d : ExpiringDict α) : Prop :=
  (d.store.map Prod.fst).Nodup

instance keysNodup.dec {α : Type} (d : ExpiringDict α) :
    Decidable (keysNodup d) := by
  unfold keysNodup; infer_instance

/-! ### Association-list facts used by the C6 proof -/

theorem alGet_none_of_not_mem {α : Type} {l : List (String × α)}
    {k : String} (h : k ∉ l.map Prod.fst) : alGet l k = none := by
  induction l with
  | nil => rfl
  | cons p rest ih =>
    obtain ⟨pk, pv⟩ := p
    simp only [List.map_cons, List.mem_cons] at h
    push_neg at h
    have hne : ¬pk = k := fun hh => h.1 hh.symm
    simp [alGet, hne, ih h.2]

theorem keys_filter_subset {α : Type} (p : String × α → Bool)
    (l : List (String × α)) :
    ((l.filter p).map Prod.fst) ⊆ l.map Prod.fst :=
  (List.Sublist.map Prod.fst (List.filter_sublist l)).subset

theorem alGet_filter {α : Type} {l : List (String × α)}
    (hnd : (l.map Prod.fst).Nodup) (p : String × α → Bool) {k : String}
    {v : α} (h : alGet l k = some v) :
    alGet (l.filter p) k = if p (k, v) then some v else none := by
  induction l with
  | nil => simp [alGet] at h
  | cons q rest ih =>
    obtain ⟨qk, qv⟩ := q
    simp only [List.map_cons, List.nodup_cons] at hnd
    by_cases hk : qk = k
    · subst hk
      have hqv : qv = v := by simpa [alGet] using h
      subst hqv
      have hget : alGet (rest.filter p) qk = none :=
        alGet_none_of_not_mem
          (fun hmem => hnd.1 (keys_filter_subset p rest hmem))
      by_cases hp : p (qk, qv) = true
      · simp [List.filter_cons, hp, alGet, hget]
      · simp only [Bool.not_eq_true] at hp
        simp [List.filter_cons, hp, alGet, hget]
    · simp only [alGet, if_neg hk] at h
      have := ih hnd.2 h
      by_cases hp : p (qk, qv) = true
      · simp [List.filter_cons, hp, alGet, hk, this]
      · simp only [Bool.not_eq_true] at hp
        simp [List.filter_cons, hp, this]

theorem mem_keys_alSet {α : Type} {l : List (String × α)} {k k2 : String}
    {v : α} (h : k2 ∈ (alSet l k v).map Prod.fst) :
    k2 ∈ l.map Prod.fst ∨ k2 = k := by
  induction l with
  | nil => simp [alSet] at h; simp [h]
  | cons q rest ih =>
    obtain ⟨qk, qv⟩ := q
    by_cases hk : qk = k
    · simp [alSet, hk] at h
      rcases h with h | h
      · subst hk; simp [h]
      · simp [h]
    · simp only [alSet, if_neg hk, List.map_cons, List.mem_cons] at h
      rcases h with h | h
      · simp [h]
      · rcases ih h with h2 | h2
        · simp [h2]
        · simp [h2]

theorem alSet_keys_nodup {α : Type} {l : List (String × α)}
    (hnd : (l.map Prod.fst).Nodup) (k : String) (v : α) :
    ((alSet l k v).map Prod.fst).Nodup := by
  induction l with
  | nil => simp [alSet]
  | cons q rest ih =>
    obtain ⟨qk, qv⟩ := q
    simp only [List.map_cons, List.nodup_cons] at hnd
    by_cases hk : qk = k
    · simp only [alSet, if_pos hk, List.map_cons, List.nodup_cons]
      exact ⟨hnd.1, hnd.2⟩
    · simp only [alSet, if_neg hk, List.map_cons, List.nodup_cons]
      refine ⟨?_, ih hnd.2⟩
      intro hmem
      rcases mem_keys_alSet hmem with h2 | h2
      · exact hnd.1 h2
      · exact hk h2

theorem removeOldKeys_nodup {α : Type} {d : ExpiringDict α}
    (hnd : keysNodup d) (now : Nat) : keysNodup (removeOldKeys d now) := by
  unfold keysNodup at hnd ⊢
  unfold removeOldKeys
  exact List.Nodup.sublist
    (List.Sublist.map Prod.fst (List.filter_sublist d.store)) hnd

theorem edAppend_invariant {α : Type} {d d2 : ExpiringDict (List α)}
    {now : Nat} {path : String} {x : α} {exp : Nat} {buf : List α}
    (hnd : keysNodup d)
    (hget : alGet d.store path = some (exp, buf))
    (happ : edAppend d now path x = some d2) :
    now < exp ∧ alGet d2.store path = some (exp, buf ++ [x])
      ∧ keysNodup d2 ∧ d2.seconds = d.seconds := by
  have hnd3 : keysNodup (removeOldKeys d now) := removeOldKeys_nodup hnd now
  have h3 := alGet_filter hnd (fun kv => decide (now < kv.2.1)) hget
  simp only [decide_eq_true_eq] at h3
  unfold edAppend at happ
  by_cases hlt : now < exp
  · rw [if_pos hlt] at h3
    have h4 : alGet (removeOldKeys d now).store path = some (exp, buf) := h3
    rw [h4] at happ
    simp only [Option.some.injEq] at happ
    subst happ
    refine ⟨hlt, ?_, ?_, rfl⟩
    · exact alGet_alSet _ _ _
    · exact alSet_keys_nodup hnd3 _ _
  · rw [if_neg hlt] at h3
    have h4 : alGet (removeOldKeys d now).store path = none := h3
    rw [h4] at happ
    simp at happ

theorem edAppend_total {α : Type} (d : ExpiringDict (List α))
    (now : Nat) {exp : Nat} {path : String} {buf : List α} (x : α)
    (hnd : keysNodup d) (hget : alGet d.store path = some (exp, buf))
    (hlt : now < exp) :
    ∃ d2, edAppend d now path x = some d2
      ∧ alGet d2.store path = some (exp, buf ++ [x]) ∧ keysNodup d2 := by
  have hnd3 : keysNodup (removeOldKeys d now) := removeOldKeys_nodup hnd now
  have h3 := alGet_filter hnd (fun kv => decide (now < kv.2.1)) hget
  simp only [decide_eq_true_eq, if_pos hlt] at h3
  have h4 : alGet (removeOldKeys d now).store path = some (exp, buf) := h3
  refine ⟨{ removeOldKeys d now with
      store := alSet (removeOldKeys d now).store path (exp, buf ++ [x]) },
    ?_, ?_, ?_⟩
  · unfold edAppend
    rw [h4]
  · exact alGet_alSet _ _ _
  · exact alSet_keys_nodup hnd3 _ _

/-- Replay a sequence of intermediate chunk appends (time, bytes) on
the multipart-upload buffer of one path. -/
def applyAppends (path : String) :
    ExpiringDict (List (List Nat)) → List (Nat × List Nat) →
      Option (ExpiringDict (List (List Nat)))
  | d, [] => some d
  | d, (t, bs) :: rest =>
    (edAppend d t path bs).bind (fun d2 => applyAppends path d2 rest)

theorem applyAppends_invariant (path : String) :
    ∀ (events : List (Nat × List Nat))
      (d dn : ExpiringDict (List (List Nat))) (exp : Nat)
      (buf : List (List Nat)),
      keysNodup d → alGet d.store path = some (exp, buf) →
      applyAppends path d events = some dn →
      ∃ buf2, alGet dn.store path = some (exp, buf2) ∧ keysNodup dn := by
  intro events
  induction events with
  | nil =>
    intro d dn exp buf hnd hget happ
    simp only [applyAppends, Option.some.injEq] at happ
    subst happ
    exact ⟨buf, hget, hnd⟩
  | cons e rest ih =>
    intro d dn exp buf hnd hget happ
    obtain ⟨t, bs⟩ := e
    simp only [applyAppends] at happ
    cases he : edAppend d t path bs with
    | none => rw [he] at happ; simp at happ
    | some d2 =>
      rw [he] at happ
      simp only [Option.some_bind'] at happ
      have hinv := edAppend_invariant hnd hget he
      exact ih d2 dn exp (buf ++ [bs]) hinv.2.2.1 hinv.2.1 happ

theorem save_chunk_one_state (d0 : ExpiringDict (List (List Nat)))
    (t0 : Nat) (path : String) (bs0 : List Nat) (hnd : keysNodup d0)
    (hpos : 0 < d0.seconds) :
    alGet (_save_chunk d0 t0 1 bs0 path).1.store path
        = some (t0 + d0.seconds, [bs0])
      ∧ keysNodup (_save_chunk d0 t0 1 bs0 path).1
      ∧ (_save_chunk d0 t0 1 bs0 path).2 = .intermediate := by
  have hnd1 : keysNodup (edSet d0 t0 path []) := by
    unfold edSet keysNodup
    exact alSet_keys_nodup (removeOldKeys_nodup hnd t0) _ _
  have hget1 : alGet (edSet d0 t0 path []).store path
      = some (t0 + d0.seconds, []) := by
    unfold edSet
    exact alGet_alSet _ _ _
  obtain ⟨d2, he, hget2, hnd2⟩ :=
    edAppend_total _ t0 bs0 hnd1 hget1 (by omega)
  have hsc : _save_chunk d0 t0 1 bs0 path = (d2, ChunkOutcome.intermediate) := by
    unfold _save_chunk _save_chunk_after_init
    rw [if_pos rfl, he]
    rfl
  rw [hsc]
  exact ⟨hget2, hnd2, rfl⟩

/-- C6 (amended): the buffered multipart state of a path is evicted
exactly when 1 hour has elapsed since the chunk-1 initialisation of the
upload — later chunk appends go through `__getitem__`, which never
refreshes the stored expiry, so they do *not* restart the clock.  After
chunk 1 at time `t0` and any sequence of successful intermediate
appends, a lookup at time `t` finds the buffered segments exactly when
`t < t0 + 3600`, regardless of the appends' times. -/
theorem multipart_ttl_runs_from_first_chunk
    (d0 : ExpiringDict (List (List Nat))) (t0 : Nat) (path : String)
    (bs0 : List Nat) (events : List (Nat × List Nat))
    (dn : ExpiringDict (List (List Nat))) (hnd : keysNodup d0)
    (hsecs : d0.seconds = 3600)
    (happly : applyAppends path (_save_chunk d0 t0 1 bs0 path).1 events
      = some dn) :
    ∃ buf, alGet dn.store path = some (t0 + 3600, buf)
      ∧ ∀ t, edGet dn t path = if t < t0 + 3600 then some buf else none := by
  have hpos : 0 < d0.seconds := by omega
  obtain ⟨hget1, hnd1, _⟩ := save_chunk_one_state d0 t0 path bs0 hnd hpos
  rw [hsecs] at hget1
  obtain ⟨buf2, hgetn, hndn⟩ :=
    applyAppends_invariant path events _ dn (t0 + 3600) [bs0] hnd1 hget1
      happly
  refine ⟨buf2, hgetn, ?_⟩
  intro t
  unfold edGet
  have h5 := alGet_filter hndn (fun kv => decide (t < kv.2.1)) hgetn
  simp only [decide_eq_true_eq] at h5
  have h6 : alGet (removeOldKeys dn t).store path
      = if t < t0 + 3600 then some (t0 + 3600, buf2) else none := h5
  rw [h6]
  by_cases hlt : t < t0 + 3600
  · rw [if_pos hlt, if_pos hlt]
    rfl
  · rw [if_neg hlt, if_neg hlt]
    rfl

/-- Witness for the C6 theorem: chunk 1 at t=0 then an append at
t=1800 leaves a buffer whose lookup succeeds exactly for t < 3600. -/
theorem multipart_ttl_runs_from_first_chunk_witness :
    (keysNodup (⟨3600, []⟩ : ExpiringDict (List (List Nat)))
      ∧ (⟨3600, []⟩ : ExpiringDict (List (List Nat))).seconds = 3600
      ∧ applyAppends "p"
          (_save_chunk (⟨3600, []⟩ : ExpiringDict (List (List Nat)))
            0 1 [97] "p").1 [(1800, [98])]
        = some ⟨3600, [("p", (3600, [[97], [98]]))]⟩)
    ∧ ∃ buf,
        alGet (⟨3600, [("p", (3600, [[97], [98]]))]⟩ :
          ExpiringDict (List (List Nat))).store "p" = some (0 + 3600, buf)
        ∧ ∀ t, edGet (⟨3600, [("p", (3600, [[97], [98]]))]⟩ :
            ExpiringDict (List (List Nat))) t "p"
          = if t < 0 + 3600 then some buf else none :=
  ⟨⟨by decide, rfl, rfl⟩,
    multipart_ttl_runs_from_first_chunk ⟨3600, []⟩ 0 "p" [97]
      [(1800, [98])] ⟨3600, [("p", (3600, [[97], [98]]))]⟩
      (by decide) rfl rfl⟩

/-- C6 counterexample: chunk 1 at t=0, chunk 2 at t=1800 (accepted),
then the final chunk at t=3601 — only 1801 seconds after the most
recent chunk, within the claimed 1-hour window — finds the buffer
already evicted (`KeyError`), because the append at t=1800 did not
restart the eviction clock. -/
theorem multipart_append_does_not_restart_clock :
    (_save_chunk (_save_chunk (⟨3600, []⟩ : ExpiringDict (List (List Nat)))
        0 1 [97] "p").1 1800 2 [98] "p").2 = ChunkOutcome.intermediate
    ∧ (_save_chunk (_save_chunk (_save_chunk
          (⟨3600, []⟩ : ExpiringDict (List (List Nat)))
        0 1 [97] "p").1 1800 2 [98] "p").1 3601 (-1) [99] "p").2
      = ChunkOutcome.keyError
    ∧ 3601 < 1800 + 3600 :=
  ⟨rfl, rfl, by omega⟩

/-! ## `_copy` and `_increment_filename` (C8, C9) -/

/-- Python `filename.partition(".")` packaged as (basename, suffix)
with `suffix = dot + ext`: split at the first dot. -/
def partitionDot (filename : List Char) : List Char × List Char :=
  (filename.takeWhile (fun c => c != '.'),
   filename.dropWhile (fun c => c != '.'))

/-- The candidate probed at loop index `i` of `_increment_filename`:
`name = f"{basename}{insert_i}{suffix}"` where
`insert_i = f"{insert}{i}" if i else ""`. -/
def candidateName (basename insert suffix : List Char) (i : Nat) :
    List Char :=
  basename ++ (if i = 0 then [] else insert ++ (toString i).data) ++ suffix

/-- The `for i in itertools.count():` loop of `_increment_filename`,
starting at index `i`: probe `_exists(context, f"/{path}/{name}")` and
stop at the first unused candidate.  The Python loop is unbounded; it
is modelled with explicit fuel (`none` when the fuel runs out). -/
def incrementFrom (pathExists : String → Bool)
    (basename insert suffix : List Char) (path : String) :
    Nat → Nat → Option (List Char)
  | 0, _ => none
  | fuel + 1, i =>
    if pathExists ("/" ++ path ++ "/"
        ++ String.mk (candidateName basename insert suffix i)) then
      incrementFrom pathExists basename insert suffix path fuel (i + 1)
    else some (candidateName basename insert suffix i)

/-- `_increment_filename(context, filename, path, insert)`. -/
def _increment_filename (pathExists : String → Bool)
    (filename : List Char) (path : String) (insert : List Char)
    (fuel : Nat) : Option (List Char) :=
  incrementFrom pathExists (partitionDot filename).1 insert
    (partitionDot filename).2 path fuel 0

/-- Match the regex `-Copy\d*\.` at the head of the list (greedy
digits, then a mandatory dot), returning the remainder. -/
def matchCopyAt : List Char → Option (List Char)
  | '-' :: 'C' :: 'o' :: 'p' :: 'y' :: rest =>
    match rest.dropWhile (fun c => c.isDigit) with
    | '.' :: rem => some rem
    | _ => none
  | _ => none

def copyRegexSubAux : Nat → List Char → List Char
  | 0, l => l
  | _ + 1, [] => []
  | fuel + 1, c :: rest =>
    match matchCopyAt (c :: rest) with
    | some rem => '.' :: copyRegexSubAux fuel rem
    | none => c :: copyRegexSubAux fuel rest

/-- `_COPY_REGEX.sub(".", s)` with `_COPY_REGEX = r"\-Copy\d*\."`:
replace every leftmost, non-overlapping occurrence by a dot. -/
def copyRegexSub (s : List Char) : List Char :=
  copyRegexSubAux s.length s

/-- `from_path.rsplit("/", 1) if "/" in from_path else
("", from_path)`. -/
def rsplitSlash (p : String) : String × String :=
  match (p.data.reverse.dropWhile (fun c => c != '/')) with
  | [] => ("", p)
  | _ :: restRev =>
    (String.mk restRev.reverse,
     String.mk (p.data.reverse.takeWhile (fun c => c != '/')).reverse)

/-- Errors raised by `_copy`. -/
inductive CopyErr : Type
  | cantCopyDirectories : CopyErr
  | nameErrorToName : CopyErr
  | noFuel : CopyErr
deriving DecidableEq, Repr

/-- The branch of `_copy` taken when the source is not a directory,
with the destination path already resolved: if the destination is an
existing directory, a collision-free name is generated (normalising an
existing `-Copy<N>.` marker out of the base name first) and the object
is copied there; otherwise `to_name` is never assigned, the object is
copied to the unmodified destination, and building the returned model
then raises `NameError` — after the copy was issued. -/
def copyNonDir (pfx : String) (dirExists pathExists : String → Bool)
    (from_path to_path0 : String) (fuel : Nat) :
    List S3Op × Except CopyErr (String × String) :=
  if dirExists to_path0 then
    match _increment_filename pathExists
        (copyRegexSub (rsplitSlash from_path).2.data) to_path0
        "-Copy".data fuel with
    | none => ([], .error .noFuel)
    | some to_name =>
      ([S3Op.copyOp (_key pfx from_path)
          (_key pfx (to_path0 ++ "/" ++ String.mk to_name))],
        .ok (String.mk to_name, to_path0 ++ "/" ++ String.mk to_name))
  else
    ([S3Op.copyOp (_key pfx from_path) (_key pfx to_path0)],
      .error .nameErrorToName)

/-- `_copy(context, from_path, to_path)`: rejects directories, resolves
the destination (defaulting to the source's parent), and dispatches to
`copyNonDir`.  `fromType` is the `type` field of the model `_get`
returned for `from_path`. -/
def _copy (pfx : String) (dirExists pathExists : String → Bool)
    (fromType : String) (from_path : String) (to_path? : Option String)
    (fuel : Nat) : List S3Op × Except CopyErr (String × String) :=
  if fromType = "directory" then ([], .error .cantCopyDirectories)
  else
    copyNonDir pfx dirExists pathExists from_path
      (match to_path? with
       | some tp => tp
       | none => (rsplitSlash from_path).1) fuel

theorem incrementFrom_first_unused (pathExists : String → Bool)
    (basename insert suffix : List Char) (path : String) :
    ∀ (fuel i : Nat) (name : List Char),
      incrementFrom pathExists basename insert suffix path fuel i
        = some name →
      ∃ j, i ≤ j ∧ name = candidateName basename insert suffix j
        ∧ pathExists ("/" ++ path ++ "/"
            ++ String.mk (candidateName basename insert suffix j)) = false
        ∧ ∀ m, i ≤ m → m < j →
          pathExists ("/" ++ path ++ "/"
            ++ String.mk (candidateName basename insert suffix m)) = true := by
  intro fuel
  induction fuel with
  | zero => intro i name h; simp [incrementFrom] at h
  | succ f ih =>
    intro i name h
    unfold incrementFrom at h
    by_cases hex : pathExists ("/" ++ path ++ "/"
        ++ String.mk (candidateName basename insert suffix i)) = true
    · rw [if_pos hex] at h
      obtain ⟨j, hij, hname, hfree, hused⟩ := ih (i + 1) name h
      refine ⟨j, by omega, hname, hfree, ?_⟩
      intro m him hmj
      by_cases hmi : m = i
      · rw [hmi]; exact hex
      · exact hused m (by omega) hmj
    · simp only [Bool.not_eq_true] at hex
      rw [if_neg (by rw [hex]; exact Bool.false_ne_true)] at h
      simp only [Option.some.injEq] at h
      exact ⟨i, le_refl i, h.symm, hex, fun m him hmi => absurd him (by omega)⟩

/-- C8 (amended): the collision-free name is produced by first
normalising any `-Copy<N>.` marker out of the base name and then
probing candidates against live existence checks — but the probe
sequence *starts with the bare normalised name itself* (loop index 0)
before `name-Copy1`, `name-Copy2`, …, and the first unused candidate
wins.  In particular copying `notebook.ipynb` into a directory already
containing it yields `notebook-Copy1.ipynb`, and a second copy yields
`notebook-Copy2.ipynb`, as the claim states. -/
theorem copy_probes_bare_name_then_copyN (pathExists : String → Bool)
    (basename insert suffix : List Char) (path : String) (fuel i : Nat)
    (name : List Char)
    (h : incrementFrom pathExists basename insert suffix path fuel i
      = some name) :
    (∃ j, i ≤ j ∧ name = candidateName basename insert suffix j
      ∧ pathExists ("/" ++ path ++ "/"
          ++ String.mk (candidateName basename insert suffix j)) = false
      ∧ ∀ m, i ≤ m → m < j →
        pathExists ("/" ++ path ++ "/"
          ++ String.mk (candidateName basename insert suffix m)) = true)
    ∧ (_copy "p/" (fun d => d == "d") (fun q => q == "/d/notebook.ipynb")
        "notebook" "s/notebook.ipynb" (some "d") 10).2
      = .ok ("notebook-Copy1.ipynb", "d/notebook-Copy1.ipynb")
    ∧ (_copy "p/" (fun d => d == "d")
        (fun q => q == "/d/notebook.ipynb"
          || q == "/d/notebook-Copy1.ipynb")
        "notebook" "s/notebook.ipynb" (some "d") 10).2
      = .ok ("notebook-Copy2.ipynb", "d/notebook-Copy2.ipynb") :=
  ⟨incrementFrom_first_unused pathExists basename insert suffix path
      fuel i name h, rfl, rfl⟩

/-- Witness for the C8 theorem: probing `notebook.ipynb` in a
directory containing only that name stops at index 1
(`notebook-Copy1.ipynb`). -/
theorem copy_probes_bare_name_then_copyN_witness :
    (incrementFrom (fun q => q == "/d/notebook.ipynb") "notebook".data
        "-Copy".data ".ipynb".data "d" 10 0
      = some "notebook-Copy1.ipynb".data)
    ∧ ∃ j, 0 ≤ j
      ∧ "notebook-Copy1.ipynb".data
          = candidateName "notebook".data "-Copy".data ".ipynb".data j
      ∧ (fun q => q == "/d/notebook.ipynb") ("/" ++ "d" ++ "/"
          ++ String.mk (candidateName "notebook".data "-Copy".data
            ".ipynb".data j)) = false
      ∧ ∀ m, 0 ≤ m → m < j →
        (fun q => q == "/d/notebook.ipynb") ("/" ++ "d" ++ "/"
          ++ String.mk (candidateName "notebook".data "-Copy".data
            ".ipynb".data m)) = true :=
  ⟨rfl,
    (copy_probes_bare_name_then_copyN (fun q => q == "/d/notebook.ipynb")
      "notebook".data "-Copy".data ".ipynb".data "d" 10 0
      "notebook-Copy1.ipynb".data rfl).1⟩

/-- C8 counterexample: copying `nb-Copy1.ipynb` into a directory that
already contains an entry of that very name yields `nb.ipynb`: the
normalisation rewrites the base name to `nb.ipynb` and the probe
sequence starts with that bare name, which is unused, so no
`-Copy<N>` candidate is ever taken — contradicting the claim that the
name is produced by probing `name-Copy1`, `name-Copy2`, … and taking
the first unused one (that would be `nb-Copy2.ipynb` here). -/
theorem copy_name_not_first_copyN_probe :
    (_copy "p/" (fun d => d == "d") (fun q => q == "/d/nb-Copy1.ipynb")
      "notebook" "s/nb-Copy1.ipynb" (some "d") 10).2
      = .ok ("nb.ipynb", "d/nb.ipynb")
    ∧ ("nb.ipynb" : String) ≠ "nb-Copy2.ipynb" :=
  ⟨rfl, by decide⟩

/-- C9: for every copy of a non-directory entry whose non-null
destination is not an existing directory, `_copy` issues the S3 object
copy to the destination key and only then fails (`to_name` is never
assigned, so building the returned model raises `NameError`), returning
no entry model: the failed call has already mutated the store. -/
theorem copy_to_nondirectory_copies_then_raises (pfx : String)
    (dirExists pathExists : String → Bool)
    (fromType from_path tp : String) (fuel : Nat)
    (htype : fromType ≠ "directory") (hdir : dirExists tp = false) :
    _copy pfx dirExists pathExists fromType from_path (some tp) fuel
      = ([S3Op.copyOp (_key pfx from_path) (_key pfx tp)],
        .error .nameErrorToName) := by
  unfold _copy copyNonDir
  rw [if_neg htype, if_neg (by rw [hdir]; exact Bool.false_ne_true)]

/-- Witness for the C9 theorem: copying `a.txt` to the non-directory
destination `dest.txt` issues the object copy and raises. -/
theorem copy_to_nondirectory_copies_then_raises_witness :
    (("file" : String) ≠ "directory"
      ∧ (fun (_ : String) => false) "dest.txt" = false)
    ∧ _copy "p/" (fun _ => false) (fun _ => false) "file" "a.txt"
        (some "dest.txt") 10
      = ([S3Op.copyOp (_key "p/" "a.txt") (_key "p/" "dest.txt")],
        .error .nameErrorToName) :=
  ⟨⟨by decide, rfl⟩,
    copy_to_nondirectory_copies_then_raises "p/" (fun _ => false)
      (fun _ => false) "file" "a.txt" "dest.txt" 10 (by decide) rfl⟩

end JupyterS3
